import Mathlib

/-!
Verification of the OMNeT++ fixed-point simulation time engine
(`src/sim/simtime.cc`) against its natural-language specification.

The C++ code is shallowly embedded: 64-bit machine integers become `Int`
with an explicit two's-complement wrap (`wrap64`) at every operation whose
C counterpart can overflow, and every throwing function returns
`Except SimTimeError _` (or a `state × Option SimTimeError` pair when the
claim is about the state left behind by a failing call).
-/

namespace OmnetppSim

/-- Smallest signed 64-bit integer (`INT64_MIN`). -/
def I64_MIN : Int := -(2 ^ 63)

/-- Largest signed 64-bit integer (`INT64_MAX`). -/
def I64_MAX : Int := 2 ^ 63 - 1

/-- The integer `n` is representable as a signed 64-bit integer. -/
def inRange64 (n : Int) : Prop := I64_MIN ≤ n ∧ n ≤ I64_MAX

instance inRange64.instDecidable (n : Int) : Decidable (inRange64 n) :=
  inferInstanceAs (Decidable (And _ _))

/-- Two's-complement wrap of an arbitrary integer into the signed 64-bit
range; models what the compiled C code does in practice when a signed
64-bit arithmetic operation overflows. -/
def wrap64 (n : Int) : Int := (n + 2 ^ 63) % 2 ^ 64 - 2 ^ 63

/-- `exp10` from simtime.cc:70-75: looks up `powersOfTen` (filled by
`fillPowersOfTen` with `powersOfTen[i] = 10^i`), returning `-1` as an
error sentinel when the exponent is outside `0..18` (`MAX_POWER_OF_TEN`). -/
def exp10 (exponent : Int) : Int :=
  if exponent < 0 ∨ 18 < exponent then -1 else 10 ^ exponent.toNat

/-- The distinct error conditions raised by the simtime engine, with the
operands that the corresponding `cRuntimeError` message names. -/
inductive SimTimeError where
  | configurationRange (requested : Int)
  | configurationConflict (current requested : Int)
  | uninitializedResolution (value exponent : Int)
  | precisionLoss (value exponent scaleexp : Int)
  | overflowCtor (value exponent : Int)
  | overflowAdding (x t : Int)
  | overflowSubtracting (x t : Int)
  | overflowInUnit (t exponent : Int)
  | formatPrecOutOfRange (prec : Int)
  | integerDivisionByZero
  deriving DecidableEq

/-- The process-wide mutable globals of `SimTime` (simtime.cc:41-45).
`scaleexp = none` models the `SCALEEXP_UNINITIALIZED` sentinel; `fscale`
and `invfscale` are the floating mirrors `(double)dscale` and
`1.0/fscale`, fully determined by `dscale`, and are not tracked
separately in the integer embedding. -/
structure SimTimeGlobals where
  scaleexp : Option Int
  dscale : Int
  maxseconds : Int
  deriving DecidableEq

/-- The zero-initialized file-scope state before any configuration. -/
def initialGlobals : SimTimeGlobals := ⟨none, 0, 0⟩

/-- The globals after the resolution has been fixed to exponent `e`. -/
def fixedGlobals (e : Int) : SimTimeGlobals :=
  ⟨some e, exp10 (-e), I64_MAX.tdiv (exp10 (-e))⟩

/-- `SimTime::setScaleExp` (simtime.cc:135-151): range check, then under
the mutex a guarded check-and-set.  The function returns the state the
globals hold after the call together with the error raised, if any. -/
def setScaleExp (e : Int) (g : SimTimeGlobals) :
    SimTimeGlobals × Option SimTimeError :=
  if e < -18 ∨ 0 < e then (g, some (.configurationRange e))
  else if g.scaleexp = some e then (g, none)
  else
    match g.scaleexp with
    | some current => (g, some (.configurationConflict current e))
    | none => (fixedGlobals e, none)

/-- `SimTime::SimTime(int64_t value, SimTimeUnit unit)` (simtime.cc:197-223).
The constructor only reads the global `scaleexp`, passed here as
`scaleexp? : Option Int`.  `int exponent = unit` makes the unit an `Int`.
In the `expdiff > 0` branch the C product `t *= mul` can overflow, hence
the `wrap64`; in the `expdiff < 0` branch `tmp * mul` is only evaluated
when `mul != -1` (C short-circuit) and then cannot leave the 64-bit
range, so no wrap is needed for the result of the comparison. -/
def simTimeFromUnit (value unit : Int) (scaleexp? : Option Int) :
    Except SimTimeError Int :=
  let exponent := unit
  match scaleexp? with
  | none => .error (.uninitializedResolution value exponent)
  | some scaleexp =>
    let t := value
    let expdiff := exponent - scaleexp
    if expdiff < 0 then
      let mul := exp10 (-expdiff)
      let tmp := t.tdiv mul
      if mul = -1 ∨ tmp * mul ≠ t then
        .error (.precisionLoss value exponent scaleexp)
      else .ok tmp
    else if 0 < expdiff then
      let mul := exp10 expdiff
      let t2 := wrap64 (t * mul)
      if mul = -1 ∨ t2.tdiv mul ≠ value then
        .error (.overflowCtor value exponent)
      else .ok t2
    else .ok t

/-- `SimTime::inUnit(SimTimeUnit unit)` (simtime.cc:237-253).  C's `/` on
`int64_t` is truncated division (`Int.tdiv`).  In the `expdiff < 0`
branch, the C negation `-x` overflows (wraps) for `x = INT64_MIN` and the
product `x * mul` can overflow, hence the two `wrap64`s. -/
def inUnit (unit scaleexp t : Int) : Except SimTimeError Int :=
  let x := t
  let exponent := unit
  let expdiff := exponent - scaleexp
  if 0 < expdiff then
    let mul := exp10 expdiff
    .ok (if mul = -1 then 0 else x.tdiv mul)
  else if expdiff < 0 then
    let mul := exp10 (-expdiff)
    if mul = -1 ∨ I64_MAX.tdiv mul ≤ (if x < 0 then wrap64 (-x) else x) then
      .error (.overflowInUnit t exponent)
    else .ok (wrap64 (x * mul))
  else .ok x

/-- Modelled from the spec: the body of `SimTime::operator+=` lives in the
header `omnetpp/simtime.h`, which is not part of the shown sources.  Per
spec 4.2 it updates `raw` by the other operand's `raw` and detects signed
64-bit overflow by checking that the sign of the result is consistent
with the operands'; on overflow it calls `SimTime::overflowAdding`
(simtime.cc:177-182), which restores the receiver (`t -= x.t`) and
throws.  Returns the receiver's raw value after the call and the error,
if any. -/
def simTimeAdd (t x : Int) : Int × Option SimTimeError :=
  let t2 := wrap64 (t + x)
  if ((0 ≤ t ↔ 0 ≤ x) ∧ ¬(0 ≤ t2 ↔ 0 ≤ x)) then
    (wrap64 (t2 - x), some (.overflowAdding x t))
  else (t2, none)

/-- Modelled from the spec: the body of `SimTime::operator-=` lives in the
missing header; per spec 4.2 it detects signed 64-bit overflow via sign
consistency and on overflow calls `SimTime::overflowSubtracting`
(simtime.cc:184-189), which restores the receiver (`t += x.t`) and
throws. -/
def simTimeSub (t x : Int) : Int × Option SimTimeError :=
  let t2 := wrap64 (t - x)
  if (¬(0 ≤ t ↔ 0 ≤ x) ∧ ¬(0 ≤ t2 ↔ 0 ≤ t)) then
    (wrap64 (t2 + x), some (.overflowSubtracting x t))
  else (t2, none)

/-- `SimTime::split(SimTimeUnit, int64_t&, SimTime&)` (simtime.cc:255-259):
`outValue = inUnit(unit); outRemainder = *this - SimTime(outValue, unit)`,
where the subtraction is the (spec-modelled) checked `operator-`. -/
def split (unit scaleexp t : Int) : Except SimTimeError (Int × Int) := do
  let outValue ← inUnit unit scaleexp t
  let w ← simTimeFromUnit outValue unit (some scaleexp)
  match simTimeSub t w with
  | (_, some e) => .error e
  | (r, none) => .ok (outValue, r)

/-- The file-static `gcd` of simtime.cc:288-296; C `%` on `int64_t` is the
truncated remainder `Int.tmod`.  The loop runs on `|b|`, which strictly
decreases. -/
def cGcd (a b : Int) : Int :=
  if h : b = 0 then a else cGcd b (a.tmod b)
termination_by b.natAbs
decreasing_by
  have hlt : (a.tmod b).natAbs < b.natAbs := by
    have : (a.tmod b).natAbs = a.natAbs % b.natAbs := by
      cases a <;> cases b <;> simp [Int.tmod] <;> rfl
    rw [this]
    exact Nat.mod_lt _ (Int.natAbs_pos.mpr h)
  exact hlt

/-- Symbolic description of the `double` expression returned by
`operator/(long long, const SimTime&)` (simtime.cc:298-328).  The integer
embedding records which double-precision computation the source returns
instead of evaluating it in IEEE arithmetic. -/
inductive FloatExpr where
  | ofInt (num : Int)
  | divInt (num denom : Int)
  | fallback (num1 num2 denom : Int)
  deriving DecidableEq

/-- Truncated 64-bit division with the C undefined-behaviour hazard made
explicit: dividing by zero is an error rather than a defined value. -/
def checkedTdiv (a b : Int) : Except SimTimeError Int :=
  if b = 0 then .error .integerDivisionByZero else .ok (a.tdiv b)

/-- `operator/(long long x, const SimTime& y)` (simtime.cc:298-328).
`num2` is `powersOfTen[-SimTime::scaleexp]`, i.e. `10^(-scaleexp)` for a
configured scale exponent in `-18..0`; `yt` is `y.t`.  Every integer
division the C code performs goes through `checkedTdiv`, so a result of
`.ok _` certifies that no integer division by zero was executed.  The
product `num1*num2` is wrapped, and the overflow check divides it back. -/
def intDivSimTime (x num2 yt : Int) : Except SimTimeError FloatExpr :=
  let num1 := x
  let denom := yt
  let num := wrap64 (num1 * num2)
  match checkedTdiv num num2 with
  | .error e => .error e
  | .ok q =>
    if q ≠ num1 then
      if denom = 0 then .ok (.fallback num1 num2 denom)
      else
        let gcd1 := cGcd num1 denom
        match checkedTdiv num1 gcd1, checkedTdiv denom gcd1 with
        | .error e, _ => .error e
        | .ok _, .error e => .error e
        | .ok num1', .ok denom' =>
          let gcd2 := cGcd num2 denom'
          match checkedTdiv num2 gcd2, checkedTdiv denom' gcd2 with
          | .error e, _ => .error e
          | .ok _, .error e => .error e
          | .ok num2', .ok denom'' =>
            let num' := wrap64 (num1' * num2')
            match checkedTdiv num' num2' with
            | .error e => .error e
            | .ok q2 =>
              if q2 ≠ num1' then .ok (.fallback num1' num2' denom'')
              else if denom'' = 1 then .ok (.ofInt num')
              else .ok (.divInt num' denom'')
    else if denom = 1 then .ok (.ofInt num)
    else .ok (.divInt num denom)

/-- The computation of the effective end decimal place in
`SimTime::format` (simtime.cc:385-412): the `prec` range check (389-390),
`digitSep` normalization (392, modelled as `digitSep : Bool` meaning
"non-null and non-empty"), `endDecimal = prec` clamped to at most 0
(405, 409-410), and the multiple-of-3 rounding applied when digit
grouping or unit annotation is requested (411-412).  C `%` and `/` are
`Int.tmod` and `Int.tdiv`. -/
def formatEndDecimal (prec : Int) (addUnits digitSep : Bool) :
    Except SimTimeError Int :=
  if 0 < prec ∨ prec < -18 then .error (.formatPrecOutOfRange prec)
  else
    let endDecimal := prec
    let endDecimal := if 0 < endDecimal then 0 else endDecimal
    if endDecimal.tmod 3 ≠ 0 ∧ (addUnits = true ∨ digitSep = true) then
      .ok (3 * ((endDecimal - 2).tdiv 3))
    else .ok endDecimal

instance exceptDecEq {ε α : Type} [DecidableEq ε] [DecidableEq α] :
    DecidableEq (Except ε α) := fun x y =>
  match x, y with
  | .ok a, .ok b => if h : a = b then isTrue (by rw [h]) else isFalse (by simp [h])
  | .error a, .error b =>
    if h : a = b then isTrue (by rw [h]) else isFalse (by simp [h])
  | .ok _, .error _ => isFalse (by simp)
  | .error _, .ok _ => isFalse (by simp)

/-! ### Helper lemmas about wrap-around arithmetic and the checked operators -/

theorem wrap64_of_inRange64 {n : Int} (h : inRange64 n) : wrap64 n = n := by
  obtain ⟨h1, h2⟩ := h
  unfold I64_MIN at h1
  unfold I64_MAX at h2
  unfold wrap64
  omega

theorem wrap64_inRange64 (n : Int) : inRange64 (wrap64 n) := by
  unfold wrap64 inRange64 I64_MIN I64_MAX
  omega

theorem wrap64_congr {a b : Int} (h : (2 : Int) ^ 64 ∣ a - b) :
    wrap64 a = wrap64 b := by
  unfold wrap64
  obtain ⟨k, hk⟩ := h
  omega

theorem exp10_in_table {e : Int} (h0 : 0 ≤ e) (h18 : e ≤ 18) :
    exp10 e = 10 ^ e.toNat := by
  unfold exp10
  rw [if_neg]
  omega

theorem exp10_pos_in_table {e : Int} (h0 : 0 ≤ e) (h18 : e ≤ 18) :
    0 < exp10 e := by
  rw [exp10_in_table h0 h18]
  positivity

theorem natAbs_pow10 (k : Nat) : ((10 : Int) ^ k).natAbs = 10 ^ k := by
  have h : ((10 : Int) ^ k) = ((10 ^ k : Nat) : Int) := by push_cast; ring
  rw [h, Int.natAbs_ofNat]

theorem pow10_int_pos (k : Nat) : 0 < (10 : Int) ^ k := by positivity

theorem tdiv_eq_zero_of_natAbs_lt {a b : Int} (h : a.natAbs < b.natAbs) :
    a.tdiv b = 0 := by
  have h2 : (a.tdiv b).natAbs = a.natAbs / b.natAbs := Int.natAbs_tdiv a b
  rw [Nat.div_eq_of_lt h] at h2
  exact Int.natAbs_eq_zero.mp h2

theorem dvd_wrap64_sub_self (n : Int) : (2 : Int) ^ 64 ∣ wrap64 n - n := by
  unfold wrap64
  omega

theorem simTimeAdd_ok {t x : Int} (hs : inRange64 (t + x)) :
    simTimeAdd t x = (t + x, none) := by
  simp only [simTimeAdd]
  rw [wrap64_of_inRange64 hs, if_neg]
  obtain ⟨h1, h2⟩ := hs
  unfold I64_MIN at h1
  unfold I64_MAX at h2
  omega

theorem simTimeAdd_overflow {t x : Int} (ht : inRange64 t) (hx : inRange64 x)
    (hs : ¬ inRange64 (t + x)) :
    simTimeAdd t x = (t, some (.overflowAdding x t)) := by
  simp only [simTimeAdd]
  unfold inRange64 I64_MIN I64_MAX at ht hx hs
  unfold wrap64
  rw [if_pos (by omega)]
  simp only [Prod.mk.injEq, and_true]
  omega

theorem simTimeSub_ok {t x : Int} (ht : inRange64 t) (hs : inRange64 (t - x)) :
    simTimeSub t x = (t - x, none) := by
  simp only [simTimeSub]
  rw [wrap64_of_inRange64 hs, if_neg]
  obtain ⟨h1, h2⟩ := hs
  obtain ⟨h3, h4⟩ := ht
  unfold I64_MIN at h1 h3
  unfold I64_MAX at h2 h4
  omega

theorem simTimeSub_overflow {t x : Int} (ht : inRange64 t) (hx : inRange64 x)
    (hs : ¬ inRange64 (t - x)) :
    simTimeSub t x = (t, some (.overflowSubtracting x t)) := by
  simp only [simTimeSub]
  unfold inRange64 I64_MIN I64_MAX at ht hx hs
  unfold wrap64
  rw [if_pos (by omega)]
  simp only [Prod.mk.injEq, and_true]
  omega

/-! ### C1 -/

/-- C1: the resolution exponent is set at most once.  For every exponent
`e` in `[-18, 0]`, `setScaleExp e` on the uninitialized globals fixes the
exponent and computes the derived constants `dscale = 10^(-e)` and
`maxseconds = INT64_MAX / dscale`; calling it again with the same `e`
succeeds as a no-op; calling it with a different in-range `e'` fails with
the configuration-conflict error naming both values and leaves the fixed
globals (exponent and derived constants) unchanged. -/
theorem setScaleExp_fixes_once (e e' : Int) (he : -18 ≤ e ∧ e ≤ 0)
    (he' : -18 ≤ e' ∧ e' ≤ 0) (hne : e' ≠ e) :
    setScaleExp e initialGlobals = (fixedGlobals e, none) ∧
    (fixedGlobals e).scaleexp = some e ∧
    (fixedGlobals e).dscale = 10 ^ (-e).toNat ∧
    (fixedGlobals e).maxseconds = I64_MAX.tdiv (10 ^ (-e).toNat) ∧
    setScaleExp e (fixedGlobals e) = (fixedGlobals e, none) ∧
    setScaleExp e' (fixedGlobals e) =
      (fixedGlobals e, some (.configurationConflict e e')) := by
  have hexp : exp10 (-e) = 10 ^ (-e).toNat :=
    exp10_in_table (by omega) (by omega)
  refine ⟨?_, rfl, ?_, ?_, ?_, ?_⟩
  · unfold setScaleExp initialGlobals
    rw [if_neg (by omega)]
    simp
  · simpa [fixedGlobals] using hexp
  · simpa [fixedGlobals] using congrArg I64_MAX.tdiv hexp
  · unfold setScaleExp
    rw [if_neg (by omega),
      if_pos (show (fixedGlobals e).scaleexp = some e from rfl)]
  · unfold setScaleExp
    rw [if_neg (by omega),
      if_neg (show ¬(fixedGlobals e).scaleexp = some e' by
        simpa [fixedGlobals] using Ne.symm hne)]
    rfl

/-- C1 witness at `e = -12`, `e' = -6`. -/
theorem setScaleExp_fixes_once_witness :
    setScaleExp (-12) initialGlobals = (fixedGlobals (-12), none) ∧
    setScaleExp (-12) (fixedGlobals (-12)) = (fixedGlobals (-12), none) ∧
    setScaleExp (-6) (fixedGlobals (-12)) =
      (fixedGlobals (-12), some (.configurationConflict (-12) (-6))) := by
  obtain ⟨h1, -, -, -, h5, h6⟩ :=
    setScaleExp_fixes_once (-12) (-6) (by decide) (by decide) (by decide)
  exact ⟨h1, h5, h6⟩

/-! ### C2 -/

/-- C2: addition and subtraction are atomic on overflow.  For raw values
`t` and `x` in the signed 64-bit range whose sum (resp. difference) is
not representable, the operation fails with the overflow error and the
receiver's raw value after the failed call equals its value before. -/
theorem addSub_overflow_restores (t x : Int)
    (ht : inRange64 t) (hx : inRange64 x) :
    (¬ inRange64 (t + x) →
      simTimeAdd t x = (t, some (.overflowAdding x t))) ∧
    (¬ inRange64 (t - x) →
      simTimeSub t x = (t, some (.overflowSubtracting x t))) :=
  ⟨fun h => simTimeAdd_overflow ht hx h, fun h => simTimeSub_overflow ht hx h⟩

/-- C2 witness: adding the maximum representable value to itself fails and
leaves the left operand unchanged; likewise subtracting 1 from the
minimum. -/
theorem addSub_overflow_restores_witness :
    simTimeAdd I64_MAX I64_MAX = (I64_MAX, some (.overflowAdding I64_MAX I64_MAX)) ∧
    simTimeSub I64_MIN 1 = (I64_MIN, some (.overflowSubtracting 1 I64_MIN)) := by
  have h := addSub_overflow_restores I64_MAX I64_MAX (by decide) (by decide)
  have h' := addSub_overflow_restores I64_MIN 1 (by decide) (by decide)
  exact ⟨h.1 (by decide), h'.2 (by decide)⟩

/-! ### C3 -/

/-- C3 counterexample: constructing the value 0 from integer 0 with unit
exponent 0 (seconds) while the resolution is uninitialized fails with the
uninitialized-resolution error — the constructor at simtime.cc:197-204
throws whenever `scaleexp == SCALEEXP_UNINITIALIZED`, without testing the
value, contradicting the claim that constructing 0 with any unit
succeeds before the resolution is configured. -/
theorem simTimeFromUnit_zero_uninit_fails :
    simTimeFromUnit 0 0 none = .error (.uninitializedResolution 0 0) := rfl

/-- C3 (amended): constructing a SimTime from an integer plus explicit
unit exponent while the resolution is uninitialized always fails with the
uninitialized-resolution error, for every value — including 0 — and every
unit. -/
theorem simTimeFromUnit_uninit_always_fails (value unit : Int) :
    simTimeFromUnit value unit none =
      .error (.uninitializedResolution value unit) := rfl

/-! ### C5 and C9: `inUnit` for coarser target units -/

/-- C5: for every 64-bit raw value and every unit exponent `u` with
`d = u - scaleexp > 0`, `inUnit` truncates toward zero: it returns
`raw / 10^d` with C-style truncated division, so the magnitude of the
result is the truncated quotient of the magnitudes and the result never
rounds away from zero (a value representing -1.5 of the coarser unit
converts to -1, not -2). -/
theorem inUnit_truncates_toward_zero (v s u : Int) (hv : inRange64 v)
    (hd : 0 < u - s) :
    inUnit u s v = .ok (v.tdiv (10 ^ (u - s).toNat)) ∧
    (v.tdiv (10 ^ (u - s).toNat)).natAbs = v.natAbs / 10 ^ (u - s).toNat ∧
    (0 ≤ v → 0 ≤ v.tdiv (10 ^ (u - s).toNat)) ∧
    (v ≤ 0 → v.tdiv (10 ^ (u - s).toNat) ≤ 0) := by
  have hpos := pow10_int_pos (u - s).toNat
  refine ⟨?_, ?_, fun h0 => Int.tdiv_nonneg h0 (le_of_lt hpos), fun h0 => ?_⟩
  · simp only [inUnit]
    rw [if_pos hd]
    by_cases h18 : u - s ≤ 18
    · rw [exp10_in_table (by omega) h18, if_neg (by omega)]
    · rw [show exp10 (u - s) = -1 by unfold exp10; rw [if_pos]; omega,
        if_pos rfl]
      have hva : v.natAbs ≤ 2 ^ 63 := by
        obtain ⟨h1, h2⟩ := hv
        unfold I64_MIN at h1
        unfold I64_MAX at h2
        omega
      have hlt : v.natAbs < ((10 : Int) ^ (u - s).toNat).natAbs := by
        rw [natAbs_pow10]
        calc v.natAbs ≤ 2 ^ 63 := hva
          _ < 10 ^ 19 := by norm_num
          _ ≤ 10 ^ (u - s).toNat := Nat.pow_le_pow_right (by norm_num) (by omega)
      rw [tdiv_eq_zero_of_natAbs_lt hlt]
  · rw [Int.natAbs_tdiv, natAbs_pow10]
    rfl
  · have hneg : v.tdiv (10 ^ (u - s).toNat) = -((-v).tdiv (10 ^ (u - s).toNat)) := by
      rw [← Int.neg_tdiv, neg_neg]
    have h2 : 0 ≤ (-v).tdiv (10 ^ (u - s).toNat) :=
      Int.tdiv_nonneg (by omega) (le_of_lt hpos)
    omega

/-- C5 witness: at scale exponent -1 (tenths of a second), the raw value
-15 represents -1.5 seconds and converts to -1 whole second, not -2. -/
theorem inUnit_truncates_toward_zero_witness :
    inUnit 0 (-1) (-15) = .ok (-1) :=
  (inUnit_truncates_toward_zero (-15) (-1) 0 (by decide) (by decide)).1.trans
    (by decide)

/-- C9: for every 64-bit raw value and every unit exponent `u` with
`u - scaleexp > 18` (so `10^(u-scaleexp)` exceeds the precomputed
power-of-ten table and `exp10` returns its -1 sentinel), `inUnit`
returns 0 without raising any error, which coincides with the
mathematically correct toward-zero truncation because `|raw| < 10^19`. -/
theorem inUnit_beyond_table (v s u : Int) (hv : inRange64 v)
    (hd : 18 < u - s) :
    inUnit u s v = .ok 0 ∧ v.tdiv (10 ^ (u - s).toNat) = 0 := by
  have hva : v.natAbs ≤ 2 ^ 63 := by
    obtain ⟨h1, h2⟩ := hv
    unfold I64_MIN at h1
    unfold I64_MAX at h2
    omega
  have hlt : v.natAbs < ((10 : Int) ^ (u - s).toNat).natAbs := by
    rw [natAbs_pow10]
    calc v.natAbs ≤ 2 ^ 63 := hva
      _ < 10 ^ 19 := by norm_num
      _ ≤ 10 ^ (u - s).toNat := Nat.pow_le_pow_right (by norm_num) (by omega)
  refine ⟨?_, tdiv_eq_zero_of_natAbs_lt hlt⟩
  simp only [inUnit]
  rw [if_pos (by omega),
    show exp10 (u - s) = -1 by unfold exp10; rw [if_pos]; omega, if_pos rfl]

/-- C9 witness: converting the maximum raw value to units of `10^19`
seconds at scale exponent 0 yields 0 with no error. -/
theorem inUnit_beyond_table_witness : inUnit 19 0 I64_MAX = .ok 0 :=
  (inUnit_beyond_table I64_MAX 0 19 (by decide) (by decide)).1

theorem natAbs_tmod_lt (a : Int) {b : Int} (hb : b ≠ 0) :
    (a.tmod b).natAbs < b.natAbs := by
  have h : (a.tmod b).natAbs = a.natAbs % b.natAbs := by
    cases a <;> cases b <;> simp [Int.tmod] <;> rfl
  rw [h]
  exact Nat.mod_lt _ (Int.natAbs_pos.mpr hb)

theorem cGcd_dvd (a b : Int) : cGcd a b ∣ a ∧ cGcd a b ∣ b := by
  generalize hn : b.natAbs = n
  induction n using Nat.strong_induction_on generalizing a b with
  | _ n ih =>
    by_cases hb : b = 0
    · subst hb
      rw [cGcd]
      simp
    · rw [cGcd]
      simp only [hb, dite_false]
      have hlt : (a.tmod b).natAbs < n := hn ▸ natAbs_tmod_lt a hb
      obtain ⟨h1, h2⟩ := ih _ hlt b (a.tmod b) rfl
      refine ⟨?_, h1⟩
      have hab := Int.tdiv_add_tmod a b
      calc cGcd b (a.tmod b) ∣ b * a.tdiv b + a.tmod b :=
            dvd_add (Dvd.dvd.mul_right h1 _) h2
        _ = a := hab

theorem cGcd_ne_zero_of_right {a b : Int} (hb : b ≠ 0) : cGcd a b ≠ 0 := by
  intro h
  exact hb (zero_dvd_iff.mp (h ▸ (cGcd_dvd a b).2))

theorem cGcd_ne_zero_of_left {a b : Int} (ha : a ≠ 0) : cGcd a b ≠ 0 := by
  intro h
  exact ha (zero_dvd_iff.mp (h ▸ (cGcd_dvd a b).1))

theorem tdiv_ne_zero_of_dvd {a b : Int} (hdvd : b ∣ a) (ha : a ≠ 0) :
    a.tdiv b ≠ 0 := by
  intro h
  have := Int.tdiv_mul_cancel hdvd
  rw [h, zero_mul] at this
  exact ha this.symm

theorem checkedTdiv_ok {a b : Int} (hb : b ≠ 0) :
    checkedTdiv a b = .ok (a.tdiv b) := by
  unfold checkedTdiv
  rw [if_neg hb]

/-- Completeness of the divide-back overflow check: for a positive
divisor no larger than `10^18`, dividing the wrapped product back by the
multiplier recovers the multiplicand exactly when the true product is
representable. -/
theorem wrap64_mul_tdiv_eq_iff {c b : Int} (hb : 0 < b) (hble : b ≤ 10 ^ 18) :
    (wrap64 (c * b)).tdiv b = c ↔ inRange64 (c * b) := by
  constructor
  · intro h
    by_contra hnr
    have hd := dvd_wrap64_sub_self (c * b)
    obtain ⟨k, hk⟩ := hd
    have hwne : wrap64 (c * b) ≠ c * b := by
      intro he
      exact hnr (he ▸ wrap64_inRange64 (c * b))
    have hk0 : k ≠ 0 := by
      intro h0
      rw [h0, mul_zero] at hk
      omega
    have htm := Int.tdiv_add_tmod (wrap64 (c * b)) b
    rw [h] at htm
    have htmod : (wrap64 (c * b)).tmod b = 2 ^ 64 * k := by
      have : b * c = c * b := mul_comm b c
      omega
    have hlt := natAbs_tmod_lt (wrap64 (c * b)) (by omega : b ≠ 0)
    rw [htmod, Int.natAbs_mul] at hlt
    have hbn : b.natAbs ≤ 10 ^ 18 := by omega
    have hk1 : 1 ≤ k.natAbs := by omega
    have : ((2 : Int) ^ 64).natAbs = 2 ^ 64 := rfl
    nlinarith [hlt, hbn, hk1, this]
  · intro h
    rw [wrap64_of_inRange64 h]
    exact Int.mul_tdiv_cancel c (by omega)

/-! ### C7: the exact-integer path of `operator/(long long, SimTime)` -/

/-- C7 counterexample: with `x = 2^62`, scale factor `num2 = 10` and raw
denominator 1, both gcd reductions leave the denominator at 1, yet the
product still overflows after reduction and the function returns the
floating-point fallback expression `(double)num1 * (double)num2 /
double(denom)` — which performs a floating division — rather than the
exact integer numerator.  This refutes the claim that a reduced
denominator of 1 always yields the exact integer with no floating
division. -/
theorem intDiv_reduced_denom_one_fallback :
    cGcd 4611686018427387904 1 = 1 ∧ cGcd 10 1 = 1 ∧
    intDivSimTime 4611686018427387904 10 1 =
      .ok (.fallback 4611686018427387904 10 1) := by
  have g1 : cGcd 4611686018427387904 1 = 1 := by
    rw [cGcd]
    norm_num
    rw [cGcd]
    norm_num
  have g2 : cGcd 10 1 = 1 := by
    rw [cGcd]
    norm_num
    rw [cGcd]
    norm_num
  refine ⟨g1, g2, ?_⟩
  simp only [intDivSimTime, checkedTdiv_ok (show (10 : Int) ≠ 0 by decide),
    checkedTdiv_ok (show (1 : Int) ≠ 0 by decide), Int.tdiv_one, g1, g2]
  decide

/-- C7 (amended): the exact-integer return happens exactly on the paths
that reach the final `denom == 1` test.  If the initial product
`x * num2` is representable and the raw denominator is 1, the exact
integer numerator is returned directly with no floating-point division;
if the initial product overflows but after the two gcd reductions the
product of the reduced factors is representable and the reduced
denominator is 1, the exact reduced integer numerator is returned
directly.  (When the product still overflows after reduction, the
floating fallback is used even if the reduced denominator is 1, as the
counterexample shows.) -/
theorem intDiv_exact_when_denom_one (x num2 yt : Int)
    (h2 : 0 < num2) (h2le : num2 ≤ 10 ^ 18) :
    (inRange64 (x * num2) → yt = 1 →
      intDivSimTime x num2 yt = .ok (.ofInt (x * num2))) ∧
    (¬ inRange64 (x * num2) → yt ≠ 0 →
      ∀ x1 d1 n2 d2 : Int,
        x1 = x.tdiv (cGcd x yt) →
        d1 = yt.tdiv (cGcd x yt) →
        n2 = num2.tdiv (cGcd num2 d1) →
        d2 = d1.tdiv (cGcd num2 d1) →
        inRange64 (x1 * n2) → d2 = 1 →
        intDivSimTime x num2 yt = .ok (.ofInt (x1 * n2))) := by
  have h20 : num2 ≠ 0 := by omega
  constructor
  · intro hr h1
    subst h1
    simp only [intDivSimTime, checkedTdiv_ok h20]
    rw [wrap64_of_inRange64 hr, Int.mul_tdiv_cancel x h20, if_neg (by simp)]
    simp
  · intro hnr hy x1 d1 n2 d2 hx1 hd1 hn2 hd2 hr1 hone
    have hq : (wrap64 (x * num2)).tdiv num2 ≠ x := by
      intro h
      exact hnr ((wrap64_mul_tdiv_eq_iff h2 h2le).mp h)
    have hg1 : cGcd x yt ≠ 0 := cGcd_ne_zero_of_right hy
    have hg2 : cGcd num2 d1 ≠ 0 := cGcd_ne_zero_of_left h20
    have hn20 : n2 ≠ 0 := by
      rw [hn2]
      exact tdiv_ne_zero_of_dvd (cGcd_dvd num2 d1).1 h20
    simp only [intDivSimTime, checkedTdiv_ok h20, checkedTdiv_ok hg1]
    rw [if_pos hq, if_neg hy]
    rw [← hx1, ← hd1]
    simp only [checkedTdiv_ok hg2]
    rw [← hn2, ← hd2]
    rw [checkedTdiv_ok hn20, wrap64_of_inRange64 hr1,
      Int.mul_tdiv_cancel x1 hn20]
    simp [hone]

/-- C7 witness for the amended claim: `x = 2^62`, `num2 = 10`, raw
denominator 20.  The initial product overflows; gcd reduction gives
`x1 = 2^60`, `n2 = 2`, reduced denominator 1, and the function returns
the exact reduced integer `2^61` with no floating division. -/
theorem intDiv_exact_when_denom_one_witness :
    intDivSimTime 4611686018427387904 10 20 =
      .ok (.ofInt 2305843009213693952) := by
  have g20 : cGcd 4611686018427387904 20 = 4 := by
    rw [cGcd, dif_neg (show ¬((20 : Int) = 0) by decide)]
    rw [show Int.tmod 4611686018427387904 20 = 4 from by decide]
    rw [cGcd, dif_neg (show ¬((4 : Int) = 0) by decide)]
    rw [show Int.tmod 20 4 = 0 from by decide]
    rw [cGcd, dif_pos rfl]
  have g5 : cGcd 10 5 = 5 := by
    rw [cGcd, dif_neg (show ¬((5 : Int) = 0) by decide)]
    rw [show Int.tmod 10 5 = 0 from by decide]
    rw [cGcd, dif_pos rfl]
  have h := (intDiv_exact_when_denom_one 4611686018427387904 10 20
    (by decide) (by decide)).2 (by decide) (by decide)
    1152921504606846976 5 2 1
    (by rw [g20]; decide) (by rw [g20]; decide)
    (by rw [g5]; decide) (by rw [g5]; decide)
    (by decide) rfl
  exact h.trans (by decide)

theorem except_bind_ok {ε α β : Type} (a : α) (f : α → Except ε β) :
    (Except.ok a >>= f : Except ε β) = f a := rfl

/-! ### C4: the `split` identity -/

/-- C4: for every 64-bit raw value `v`, every configured scale exponent
`s` in `[-18, 0]`, and every supported unit exponent `u` in `[-18, 0]`
for which `inUnit` succeeds with result `count`, `split` returns the pair
`(count, remainder)` where `remainder` is `v` minus the raw value `w` of
`SimTime(count, unit)`, and the exact identity `v = count*unit +
remainder` holds at the level of raw tick counts: constructing the
SimTime for `count` in unit `u` succeeds with raw value `w`, and adding
`w` and the remainder with the checked addition yields exactly `v` with
no overflow. -/
theorem split_exact_identity (v s u count : Int) (hv : inRange64 v)
    (hs : -18 ≤ s ∧ s ≤ 0) (hu : -18 ≤ u ∧ u ≤ 0)
    (hok : inUnit u s v = .ok count) :
    ∃ w rem, simTimeFromUnit count u (some s) = .ok w ∧
      split u s v = .ok (count, rem) ∧
      simTimeAdd w rem = (v, none) := by
  have hv63 : v.natAbs ≤ 2 ^ 63 := by
    obtain ⟨h1, h2⟩ := hv
    unfold I64_MIN at h1
    unfold I64_MAX at h2
    omega
  rcases lt_trichotomy (u - s) 0 with hd | hd | hd
  · -- the target unit is finer than the resolution: d < 0
    set m : Int := (10 : Int) ^ (s - u).toNat with hmdef
    have hk1 : 1 ≤ (s - u).toNat := by omega
    have hk18 : (s - u).toNat ≤ 18 := by omega
    have hm1 : (10 : Int) ≤ m := by
      calc (10 : Int) = 10 ^ 1 := by norm_num
        _ ≤ 10 ^ (s - u).toNat := pow_le_pow_right (by norm_num) hk1
    have hm18 : m ≤ 10 ^ 18 := pow_le_pow_right (by norm_num) hk18
    have hexp : exp10 (-(u - s)) = m := by
      rw [show -(u - s) = s - u by ring]
      exact exp10_in_table (by omega) (by omega)
    by_cases hc : (m = -1 ∨ I64_MAX.tdiv m ≤ (if v < 0 then wrap64 (-v) else v))
    · exfalso
      have hIU : inUnit u s v = .error (.overflowInUnit v u) := by
        simp only [inUnit]
        rw [if_neg (by omega), if_pos hd, hexp, if_pos hc]
      rw [hIU] at hok
      exact absurd hok (by simp)
    · have hIU : inUnit u s v = .ok (wrap64 (v * m)) := by
        simp only [inUnit]
        rw [if_neg (by omega), if_pos hd, hexp, if_neg hc]
      push_neg at hc
      obtain ⟨-, hA⟩ := hc
      rw [hIU] at hok
      simp only [Except.ok.injEq] at hok
      by_cases hmin : v = I64_MIN
      · -- INT64_MIN: the unchecked negation wraps and the product wraps to 0
        subst hmin
        have h2m : (2 : Int) ∣ m := dvd_pow (by norm_num) (by omega)
        obtain ⟨c, hc2⟩ := h2m
        have hw0 : wrap64 (I64_MIN * m) = 0 := by
          have h := wrap64_congr (a := I64_MIN * m) (b := 0)
            ⟨-c, by rw [hc2]; unfold I64_MIN; ring⟩
          rw [h]
          decide
        rw [hw0] at hok
        subst hok
        have hCtor : simTimeFromUnit 0 u (some s) = .ok 0 := by
          simp only [simTimeFromUnit]
          rw [if_pos hd, hexp, Int.zero_tdiv,
            if_neg (by push_neg; exact ⟨by omega, by rw [zero_mul]⟩)]
        refine ⟨0, I64_MIN, hCtor, ?_, ?_⟩
        · have hSub : simTimeSub I64_MIN 0 = (I64_MIN - 0, none) :=
            simTimeSub_ok hv (by rwa [sub_zero])
          simp only [split, hIU, hw0, except_bind_ok, hCtor, hSub, sub_zero]
        · have hAdd := simTimeAdd_ok (t := 0) (x := I64_MIN)
            (by rwa [zero_add])
          rwa [zero_add] at hAdd
      · -- v ≠ INT64_MIN: the product is exactly representable
        have hq := Int.tdiv_add_tmod I64_MAX m
        have hr0 : 0 ≤ I64_MAX.tmod m :=
          Int.tmod_nonneg m (by unfold I64_MAX; norm_num)
        have hqm : I64_MAX.tdiv m * m ≤ I64_MAX := by
          have hmc : m * I64_MAX.tdiv m = I64_MAX.tdiv m * m := mul_comm _ _
          omega
        have hr : inRange64 (v * m) := by
          rcases le_or_lt 0 v with hv0 | hv0
          · rw [if_neg (by omega)] at hA
            have h1 : v * m ≤ (I64_MAX.tdiv m - 1) * m :=
              mul_le_mul_of_nonneg_right (by omega) (by omega)
            have h2 : (I64_MAX.tdiv m - 1) * m = I64_MAX.tdiv m * m - m := by
              ring
            have h3 : 0 ≤ v * m := mul_nonneg hv0 (by omega)
            constructor
            · calc I64_MIN ≤ 0 := by unfold I64_MIN; norm_num
                _ ≤ v * m := h3
            · omega
          · rw [if_pos hv0] at hA
            have hnegr : inRange64 (-v) := by
              obtain ⟨h1, h2⟩ := hv
              unfold inRange64 I64_MIN I64_MAX at *
              omega
            rw [wrap64_of_inRange64 hnegr] at hA
            have h1 : -v * m ≤ (I64_MAX.tdiv m - 1) * m :=
              mul_le_mul_of_nonneg_right (by omega) (by omega)
            have h2 : (I64_MAX.tdiv m - 1) * m = I64_MAX.tdiv m * m - m := by
              ring
            have h3 : -v * m = -(v * m) := by ring
            have h4 : 0 ≤ -v * m := mul_nonneg (by omega) (by omega)
            constructor
            · have h5 : -(v * m) ≤ I64_MAX - m := by omega
              unfold I64_MIN
              unfold I64_MAX at h5
              omega
            · have h5 : v * m ≤ 0 := by omega
              unfold I64_MAX
              omega
        rw [wrap64_of_inRange64 hr] at hok
        subst hok
        have hCtor : simTimeFromUnit (v * m) u (some s) = .ok v := by
          simp only [simTimeFromUnit]
          rw [if_pos hd, hexp, Int.mul_tdiv_cancel v (by omega : m ≠ 0),
            if_neg (by push_neg; exact ⟨by omega, rfl⟩)]
        refine ⟨v, 0, hCtor, ?_, ?_⟩
        · have hSub : simTimeSub v v = (v - v, none) :=
            simTimeSub_ok hv (by rw [sub_self]; decide)
          simp only [split, hIU, wrap64_of_inRange64 hr, except_bind_ok,
            hCtor, hSub, sub_self]
        · have hAdd := simTimeAdd_ok (t := v) (x := 0) (by rwa [add_zero])
          rwa [add_zero] at hAdd
  · -- d = 0: the unit matches the resolution exactly
    have hIU : inUnit u s v = .ok v := by
      simp only [inUnit]
      rw [if_neg (by omega), if_neg (by omega)]
    rw [hIU] at hok
    simp only [Except.ok.injEq] at hok
    subst hok
    have hCtor : simTimeFromUnit v u (some s) = .ok v := by
      simp only [simTimeFromUnit]
      rw [if_neg (by omega), if_neg (by omega)]
    refine ⟨v, 0, hCtor, ?_, ?_⟩
    · have hSub : simTimeSub v v = (v - v, none) :=
        simTimeSub_ok hv (by rw [sub_self]; decide)
      simp only [split, hIU, except_bind_ok, hCtor, hSub, sub_self]
    · have hAdd := simTimeAdd_ok (t := v) (x := 0) (by rwa [add_zero])
      rwa [add_zero] at hAdd
  · -- the target unit is coarser than the resolution: d > 0
    set m : Int := (10 : Int) ^ (u - s).toNat with hmdef
    have hk1 : 1 ≤ (u - s).toNat := by omega
    have hk18 : (u - s).toNat ≤ 18 := by omega
    have hm1 : (10 : Int) ≤ m := by
      calc (10 : Int) = 10 ^ 1 := by norm_num
        _ ≤ 10 ^ (u - s).toNat := pow_le_pow_right (by norm_num) hk1
    have hm18 : m ≤ 10 ^ 18 := pow_le_pow_right (by norm_num) hk18
    have hexp : exp10 (u - s) = m := exp10_in_table (by omega) (by omega)
    have hIU : inUnit u s v = .ok (v.tdiv m) := by
      simp only [inUnit]
      rw [if_pos hd, hexp, if_neg (by omega)]
    rw [hIU] at hok
    simp only [Except.ok.injEq] at hok
    subst hok
    have hmn : m.natAbs = 10 ^ (u - s).toNat := by
      rw [hmdef, natAbs_pow10]
    have hnat : (v.tdiv m * m).natAbs = v.natAbs / 10 ^ (u - s).toNat
        * 10 ^ (u - s).toNat := by
      rw [Int.natAbs_mul, Int.natAbs_tdiv, hmn]
      rfl
    have hle : v.natAbs / 10 ^ (u - s).toNat * 10 ^ (u - s).toNat
        ≤ v.natAbs := Nat.div_mul_le_self _ _
    have hne : v.natAbs / 10 ^ (u - s).toNat * 10 ^ (u - s).toNat
        ≠ 2 ^ 63 := by
      intro h
      have hdvd : (10 : Nat) ^ (u - s).toNat ∣ 2 ^ 63 :=
        ⟨v.natAbs / 10 ^ (u - s).toNat, by rw [← h]; ring⟩
      have h5m : (5 : Nat) ∣ 10 ^ (u - s).toNat :=
        dvd_pow (by norm_num) (by omega)
      have h5 : (5 : Nat) ∣ 2 ^ 63 := h5m.trans hdvd
      norm_num at h5
    have hb1 : (v.tdiv m * m).natAbs ≤ 2 ^ 63 := by
      rw [hnat]
      exact le_trans hle hv63
    have hb2 : (v.tdiv m * m).natAbs ≠ 2 ^ 63 := by
      rw [hnat]
      exact hne
    have hr : inRange64 (v.tdiv m * m) := by
      unfold inRange64 I64_MIN I64_MAX
      omega
    have hCtor : simTimeFromUnit (v.tdiv m) u (some s)
        = .ok (v.tdiv m * m) := by
      simp only [simTimeFromUnit]
      rw [if_neg (by omega), if_pos hd, hexp, wrap64_of_inRange64 hr,
        Int.mul_tdiv_cancel (v.tdiv m) (by omega : m ≠ 0),
        if_neg (by push_neg; exact ⟨by omega, rfl⟩)]
    have hrem : v - v.tdiv m * m = v.tmod m := by
      have ht := Int.tdiv_add_tmod v m
      have hmc : m * (v.tdiv m) = v.tdiv m * m := mul_comm _ _
      omega
    have hremR : inRange64 (v - v.tdiv m * m) := by
      have htm := natAbs_tmod_lt v (show m ≠ 0 by omega)
      rw [hmn] at htm
      have h18 : (10 : Nat) ^ (u - s).toNat ≤ 10 ^ 18 :=
        Nat.pow_le_pow_right (by norm_num) hk18
      rw [hrem]
      unfold inRange64 I64_MIN I64_MAX
      omega
    have hSub : simTimeSub v (v.tdiv m * m) = (v - v.tdiv m * m, none) :=
      simTimeSub_ok hv hremR
    refine ⟨v.tdiv m * m, v - v.tdiv m * m, hCtor, ?_, ?_⟩
    · simp only [split, hIU, except_bind_ok, hCtor, hSub]
    · have hsum : v.tdiv m * m + (v - v.tdiv m * m) = v := by ring
      have hAdd := simTimeAdd_ok (t := v.tdiv m * m) (x := v - v.tdiv m * m)
        (by rwa [hsum])
      rwa [hsum] at hAdd

/-- C4 witness at a boundary value: splitting the maximum raw value at
picosecond resolution into whole seconds gives count 9223372 and
remainder 36854775807 raw ticks, and the identity
`count*unit + remainder = value` holds exactly. -/
theorem split_exact_identity_witness :
    split 0 (-12) I64_MAX = .ok (9223372, 36854775807) ∧
    simTimeAdd 9223372000000000000 36854775807 = (I64_MAX, none) := by
  obtain ⟨w, rem, h1, h2, h3⟩ := split_exact_identity I64_MAX (-12) 0 9223372
    (by decide) (by decide) (by decide) (by decide)
  have e1 : simTimeFromUnit 9223372 0 (some (-12)) =
      .ok 9223372000000000000 := by decide
  have e2 : split 0 (-12) I64_MAX = .ok (9223372, 36854775807) := by decide
  rw [e1] at h1
  rw [e2] at h2
  simp only [Except.ok.injEq] at h1
  simp only [Except.ok.injEq, Prod.mk.injEq] at h2
  obtain ⟨-, hrem⟩ := h2
  refine ⟨e2, ?_⟩
  rw [h1, hrem]
  exact h3

/-- C6: in the integer+unit constructor with `d = u - scaleexp < 0` (the
configured resolution is coarser than the unit), the stored raw value is
the integer divided by `10^(-d)`, and the construction fails with the
precision-loss error if and only if that division is inexact or
`10^(-d)` is not representable (`-d > 18`); on success the stored value
exactly represents the requested quantity (`stored * 10^(-d) = value`). -/
theorem ctor_coarser_exact_or_precision_loss (value u s : Int)
    (hv : inRange64 value) (hs : -18 ≤ s ∧ s ≤ 0) (hd : u - s < 0) :
    ((s - u ≤ 18 ∧ (10 : Int) ^ (s - u).toNat ∣ value) →
      simTimeFromUnit value u (some s) =
          .ok (value.tdiv ((10 : Int) ^ (s - u).toNat)) ∧
      value.tdiv ((10 : Int) ^ (s - u).toNat) * (10 : Int) ^ (s - u).toNat
        = value) ∧
    ((18 < s - u ∨ ¬ (10 : Int) ^ (s - u).toNat ∣ value) →
      simTimeFromUnit value u (some s) = .error (.precisionLoss value u s)) := by
  have hpos := pow10_int_pos (s - u).toNat
  constructor
  · rintro ⟨h18, hdvd⟩
    have hcancel := Int.tdiv_mul_cancel hdvd
    have hexp : exp10 (-(u - s)) = 10 ^ (s - u).toNat := by
      rw [show -(u - s) = s - u by ring]
      exact exp10_in_table (by omega) h18
    refine ⟨?_, hcancel⟩
    simp only [simTimeFromUnit]
    rw [if_pos hd, hexp, if_neg (by push_neg; exact ⟨by omega, hcancel⟩)]
  · intro hb
    simp only [simTimeFromUnit]
    rw [if_pos hd]
    by_cases h18 : 18 < s - u
    · rw [show exp10 (-(u - s)) = -1 by
        unfold exp10
        rw [show -(u - s) = s - u by ring, if_pos]
        omega]
      rw [if_pos (Or.inl rfl)]
    · have hndvd : ¬ (10 : Int) ^ (s - u).toNat ∣ value := by
        rcases hb with h | h
        · omega
        · exact h
      have hexp : exp10 (-(u - s)) = 10 ^ (s - u).toNat := by
        rw [show -(u - s) = s - u by ring]
        exact exp10_in_table (by omega) (by omega)
      rw [hexp, if_pos (Or.inr ?_)]
      intro heq
      rw [mul_comm] at heq
      exact hndvd ⟨value.tdiv ((10 : Int) ^ (s - u).toNat), heq.symm⟩

/-- C6 witness: at scale exponent -2, constructing `1500·10^-3` seconds
succeeds and stores exactly 150 raw ticks, while `1501·10^-3` fails with
the precision-loss error. -/
theorem ctor_coarser_exact_or_precision_loss_witness :
    simTimeFromUnit 1500 (-3) (some (-2)) = .ok 150 ∧
    simTimeFromUnit 1501 (-3) (some (-2)) =
      .error (.precisionLoss 1501 (-3) (-2)) := by
  have h := ctor_coarser_exact_or_precision_loss 1500 (-3) (-2)
    (by decide) (by decide) (by decide)
  have h' := ctor_coarser_exact_or_precision_loss 1501 (-3) (-2)
    (by decide) (by decide) (by decide)
  refine ⟨?_, h'.2 (Or.inr (by norm_num))⟩
  exact (h.1 ⟨by norm_num, by norm_num⟩).1.trans (by decide)

/-! ### C8: the effective end decimal place in `format` -/

/-- C8: in `SimTime::format`, when digit grouping or unit annotation is
requested and the requested end precision `prec` is not a multiple of 3,
the effective end decimal place is `3*((prec-2)/3)` (C truncated
division): a multiple of 3 that is never above `prec` (never rounded up
toward 0) and within 3 of it, i.e. `prec` rounded down to the nearest
multiple of 3; in particular both -1 and -2 yield -3. -/
theorem format_end_boundary (prec : Int) (addUnits digitSep : Bool)
    (hp : -18 ≤ prec ∧ prec ≤ 0)
    (hg : addUnits = true ∨ digitSep = true)
    (hm : prec.tmod 3 ≠ 0) :
    formatEndDecimal prec addUnits digitSep = .ok (3 * ((prec - 2).tdiv 3)) ∧
    (3 : Int) ∣ 3 * ((prec - 2).tdiv 3) ∧
    3 * ((prec - 2).tdiv 3) ≤ prec ∧
    prec < 3 * ((prec - 2).tdiv 3) + 3 := by
  obtain ⟨hp1, hp2⟩ := hp
  refine ⟨?_, ⟨(prec - 2).tdiv 3, rfl⟩, ?_, ?_⟩
  · simp only [formatEndDecimal]
    rw [if_neg (by omega), if_neg (show ¬ 0 < prec by omega), if_pos ⟨hm, hg⟩]
  · interval_cases prec <;> revert hm <;> decide
  · interval_cases prec <;> revert hm <;> decide

/-- C8 witness: requested end precisions -1 (with unit annotation) and
-2 (with digit grouping) both produce the effective end boundary -3. -/
theorem format_end_boundary_witness :
    formatEndDecimal (-1) true false = .ok (-3) ∧
    formatEndDecimal (-2) false true = .ok (-3) := by
  have h1 := format_end_boundary (-1) true false (by decide) (Or.inl rfl) (by decide)
  have h2 := format_end_boundary (-2) false true (by decide) (Or.inr rfl) (by decide)
  exact ⟨h1.1.trans (by decide), h2.1.trans (by decide)⟩

/-! ### C10: integer division by a zero SimTime -/

/-- C10: dividing any 64-bit integer by a SimTime whose raw value is 0
never executes an integer division or modulo by zero (every integer
division in the embedding is checked, and the result is `.ok _`): the
overflow branch tests the denominator for zero before any gcd reduction,
and the function returns a floating-point expression whose denominator
is the zero raw value (which IEEE evaluation turns into ±infinity, or
NaN for a zero numerator) rather than raising an error. -/
theorem intDiv_by_zero_simtime (x s : Int) (hs : -18 ≤ s ∧ s ≤ 0) :
    intDivSimTime x ((10 : Int) ^ (-s).toNat) 0 =
        .ok (.divInt (wrap64 (x * (10 : Int) ^ (-s).toNat)) 0) ∨
    intDivSimTime x ((10 : Int) ^ (-s).toNat) 0 =
        .ok (.fallback x ((10 : Int) ^ (-s).toNat) 0) := by
  have hpos := pow10_int_pos (-s).toNat
  have hch : checkedTdiv (wrap64 (x * (10 : Int) ^ (-s).toNat))
      ((10 : Int) ^ (-s).toNat) =
      .ok ((wrap64 (x * (10 : Int) ^ (-s).toNat)).tdiv
        ((10 : Int) ^ (-s).toNat)) := by
    unfold checkedTdiv
    rw [if_neg (by omega)]
  by_cases hq : (wrap64 (x * (10 : Int) ^ (-s).toNat)).tdiv
      ((10 : Int) ^ (-s).toNat) ≠ x
  · right
    simp only [intDivSimTime, hch]
    rw [if_pos hq]
    simp
  · left
    simp only [intDivSimTime, hch]
    rw [if_neg hq]
    simp

/-- C10 witness: `1 / SimTime(raw 0)` at picosecond resolution returns
the floating expression `(double)10^12 / (double)0` with no error. -/
theorem intDiv_by_zero_simtime_witness :
    intDivSimTime 1 1000000000000 0 = .ok (.divInt 1000000000000 0) := by
  have h := intDiv_by_zero_simtime 1 (-12) (by decide)
  have e : ((10 : Int) ^ (-(-12 : Int)).toNat) = 1000000000000 := by decide
  rw [e] at h
  have e2 : wrap64 (1 * 1000000000000) = 1000000000000 := by decide
  rw [e2] at h
  rcases h with h | h
  · exact h
  · exact absurd h (by decide)
